import Mathlib

/-!
Shallow embedding of `src/logger.py` (class `Logger`), an epoch-indexed
training-metrics log store.

Modelling conventions:
* Python floats are modelled as rationals (ℚ).  `json.dump` of a list of
  floats followed by `json.load` reproduces the values exactly in the
  source (shortest-roundtrip decimal form), so a persisted file is
  modelled as holding the parsed list of numbers directly.
* Python dicts are modelled as insertion-ordered association lists with
  unique keys: lookup scans for the first matching key, and assignment
  `d[k] = v` overwrites in place when `k` is present and appends a fresh
  entry at the end otherwise.
* Exceptions are modelled by an explicit error value returned together
  with the state as mutated up to the raise point, so partial mutation
  before a raise is observable.
* The filesystem is a map from path strings to parsed file contents.
  `matplotlib` chart rendering mutates no `Logger` state; a call of
  `plot` is modelled as a render-count event, and the series it would
  draw are recoverable through `Logger.plot_data`.
* The unbounded `while True` resume loop is modelled with explicit fuel;
  theorems about it supply enough fuel for the epochs actually on disk.
-/

namespace EpochLog

/-- Values a caller may place in the dictionary passed to `log_info`;
the runtime check `type(v) is float` accepts only the `float` form. -/
inductive PyVal where
  | float (x : ℚ)
  | int (n : ℤ)
  | str (s : String)
  | bool (b : Bool)
  | none
  deriving DecidableEq, Repr

/-- Python test `type(v) is float`. -/
def PyVal.isFloat : PyVal → Bool
  | PyVal.float _ => true
  | _ => false

/-- Exception classes the embedded code can raise. -/
inductive PyErr where
  | keyError
  | assertionError
  | indexError
  | fileNotFoundError
  | zeroDivisionError
  | nameError
  | attributeError
  deriving DecidableEq, Repr

/-- Insertion-ordered association list standing for a Python dict. -/
abbrev Dict (α : Type) := List (String × α)

/-- Python dict lookup `d[k]` (first matching entry). -/
def dictGet? {α : Type} : Dict α → String → Option α
  | [], _ => Option.none
  | (k, v) :: d, k' => if k' = k then some v else dictGet? d k'

/-- Python dict assignment `d[k] = v`: overwrite in place when the key is
present, append a fresh entry at the end otherwise. -/
def dictSet {α : Type} : Dict α → String → α → Dict α
  | [], k, v => [(k, v)]
  | (k', v') :: d, k, v => if k = k' then (k, v) :: d else (k', v') :: dictSet d k v

/-- Replacement of the last element of a list, `l[-1] = a` on a Python list. -/
def setLast {α : Type} (l : List α) (a : α) : List α := l.dropLast ++ [a]

/-- Python list indexing `l[i]`, including negative indices from the end;
out-of-range access is `IndexError`, here `Option.none`. -/
def pyIndex {α : Type} (l : List α) (i : ℤ) : Option α :=
  if 0 ≤ i then l.get? i.toNat
  else if 0 ≤ i + (l.length : ℤ) then l.get? (i + (l.length : ℤ)).toNat
  else Option.none

/-- Python format `f-string {n:02d}`: width 2 with a leading zero for
single-digit non-negative numbers, plain decimal otherwise. -/
def fmt02 (n : ℤ) : String :=
  if 0 ≤ n ∧ n < 10 then "0" ++ toString n else toString n

/-- Path of the per-(key, epoch) file,
`os.path.join(log_dir_path, f-string {k}_{epoch:02d}.json)`. -/
def fileName (dir k : String) (e : ℤ) : String :=
  dir ++ "/" ++ k ++ "_" ++ fmt02 e ++ ".json"

/-- One epoch record: per-key list of recorded values. -/
abbrev EpochRec := Dict (List ℚ)

/-- Filesystem under the log directory: path to parsed file contents. -/
abbrev FS := Dict (List ℚ)

/-- Per-key configuration record from `meta_info_dict`: optional display
alias and optional chart y-scale. -/
structure MetaInfo where
  aliasName : Option String := Option.none
  yscale : Option String := Option.none
  deriving DecidableEq, Repr

/-- The `Logger` object state: fields set by `__init__`.  Note that the
constructor sets `log_dir_path`; no attribute named `dir_path` is ever
created on the object. -/
structure Logger where
  meta_info_dict : List (String × MetaInfo)
  log_dir_path : String
  info : List EpochRec
  periodic_plot : Bool
  period : ℕ
  plot_counter : ℕ
  is_loading : Bool
  deriving DecidableEq, Repr

/-- Declared metric keys, `self.meta_info_dict.keys()` in declaration order. -/
def Logger.keys (st : Logger) : List String := st.meta_info_dict.map Prod.fst

/-- Fresh epoch record `{k: [] for k in self.meta_info_dict.keys()}`. -/
def Logger.emptyEpoch (st : Logger) : EpochRec :=
  st.keys.map (fun k => (k, ([] : List ℚ)))

/-- Method `new_epoch`: render the chart unless loading (counted in the
second component), then append a fresh all-empty epoch record. -/
def Logger.new_epoch (st : Logger) : Logger × ℕ :=
  let renders := if !st.is_loading && st.periodic_plot then 1 else 0
  ({ st with info := st.info ++ [st.emptyEpoch] }, renders)

/-- Loop body of `log_info`: for each declared key `k` in order, evaluate
`info_to_log[k]` (KeyError when absent), `assert type(v) is float`
(AssertionError), then `self.info[-1][k].append(v)` (IndexError on an
empty store).  Mutation performed before a raise is kept. -/
def logInfoGo (vals : Dict PyVal) : List String → List EpochRec → List EpochRec × Option PyErr
  | [], info => (info, Option.none)
  | k :: ks, info =>
    match dictGet? vals k with
    | Option.none => (info, some PyErr.keyError)
    | some v =>
      match v with
      | PyVal.float x =>
        match info.getLast? with
        | Option.none => (info, some PyErr.indexError)
        | some d =>
          match dictGet? d k with
          | Option.none => (info, some PyErr.keyError)
          | some l => logInfoGo vals ks (setLast info (dictSet d k (l ++ [x])))
      | _ => (info, some PyErr.assertionError)

/-- Method `log_info`: append the supplied value for every declared key,
then, when periodic plotting is on, step `plot_counter` modulo `period`
(Python `% 0` raises ZeroDivisionError) and render when it wraps to 0.
Returns the new state, the number of chart renders, and the raised
exception if any. -/
def Logger.log_info (st : Logger) (vals : Dict PyVal) : Logger × ℕ × Option PyErr :=
  match logInfoGo vals st.keys st.info with
  | (info', some e) => ({ st with info := info' }, 0, some e)
  | (info', Option.none) =>
    if st.periodic_plot then
      if st.period = 0 then ({ st with info := info' }, 0, some PyErr.zeroDivisionError)
      else
        let c := (st.plot_counter + 1) % st.period
        ({ st with info := info', plot_counter := c },
          (if c = 0 then 1 else 0), Option.none)
    else ({ st with info := info' }, 0, Option.none)

/-- Inner loop of the chart-data gathering in `plot`:
`for k, v in epoch_info.items(): info[k].extend(v)`. -/
def extendAllGo : Dict (List ℚ) → EpochRec → Except PyErr (Dict (List ℚ))
  | acc, [] => Except.ok acc
  | acc, (k, v) :: rest =>
    match dictGet? acc k with
    | Option.none => Except.error PyErr.keyError
    | some l => extendAllGo (dictSet acc k (l ++ v)) rest

/-- Outer loop of the chart-data gathering in `plot` over all epochs. -/
def plotGatherGo : Dict (List ℚ) → List EpochRec → Except PyErr (Dict (List ℚ))
  | acc, [] => Except.ok acc
  | acc, d :: rest =>
    match extendAllGo acc d with
    | Except.error e => Except.error e
    | Except.ok acc' => plotGatherGo acc' rest

/-- Observable input of `plot`: per key, the concatenation of that key's
values across all epochs in order, exactly the series handed to the
rendering library. -/
def Logger.plot_data (st : Logger) : Except PyErr (Dict (List ℚ)) :=
  plotGatherGo st.emptyEpoch st.info

/-- Loop body of `save_epoch`: for each declared key, serialize
`self.info[epoch][k]` to its per-(key, epoch) file.  (The model elides
the truncation `open(path, 'w')` performs before a failing index lookup,
since no verified property inspects the filesystem after a failed save.) -/
def saveEpochGo (dir : String) (e : ℤ) (info : List EpochRec) :
    List String → FS → FS × Option PyErr
  | [], fs => (fs, Option.none)
  | k :: ks, fs =>
    match pyIndex info e with
    | Option.none => (fs, some PyErr.indexError)
    | some d =>
      match dictGet? d k with
      | Option.none => (fs, some PyErr.keyError)
      | some l => saveEpochGo dir e info ks (dictSet fs (fileName dir k e) l)

/-- Method `save_epoch`. -/
def Logger.save_epoch (st : Logger) (fs : FS) (e : ℤ) : FS × Option PyErr :=
  saveEpochGo st.log_dir_path e st.info st.keys fs

/-- Method `save_last_epoch`: `save_epoch(len(self.info) - 1)`. -/
def Logger.save_last_epoch (st : Logger) (fs : FS) : FS × Option PyErr :=
  st.save_epoch fs ((st.info.length : ℤ) - 1)

/-- Loop body of `load_epoch`: for each declared key, if the per-(key,
epoch) file exists, parse it and assign `self.info[-1][k]`; otherwise
raise FileNotFoundError.  Keys processed before a raise stay replaced. -/
def loadEpochGo (dir : String) (e : ℤ) (fs : FS) :
    List String → List EpochRec → List EpochRec × Option PyErr
  | [], info => (info, Option.none)
  | k :: ks, info =>
    match dictGet? fs (fileName dir k e) with
    | some content =>
      match info.getLast? with
      | Option.none => (info, some PyErr.indexError)
      | some d => loadEpochGo dir e fs ks (setLast info (dictSet d k content))
    | Option.none => (info, some PyErr.fileNotFoundError)

/-- Method `load_epoch`: always writes into the last epoch slot, not the
slot of its `epoch` argument, which is used only in the file names. -/
def Logger.load_epoch (st : Logger) (fs : FS) (e : ℤ) : Logger × Option PyErr :=
  match loadEpochGo st.log_dir_path e fs st.keys st.info with
  | (info', err) => ({ st with info := info' }, err)

/-- The `while True` resume loop of `load`, with explicit fuel: start an
epoch, try to load it; on success continue with the next epoch number; on
FileNotFoundError run `del self.info[-1]` (dropping the just-created
epoch, including any partial contents) and clear `is_loading`.  An
exception other than FileNotFoundError would propagate (unreachable
here); it and fuel exhaustion yield `Option.none`. -/
def loadGo (fs : FS) : ℕ → Logger → ℕ → Option Logger
  | 0, _, _ => Option.none
  | fuel + 1, st, e =>
    let st1 := (st.new_epoch).1
    match st1.load_epoch fs (e : ℤ) with
    | (st2, Option.none) => loadGo fs fuel st2 (e + 1)
    | (st2, some PyErr.fileNotFoundError) =>
      some { st2 with info := st2.info.dropLast, is_loading := false }
    | (_, some _) => Option.none

/-- Method `load`: set `is_loading` and run the resume loop from epoch 0. -/
def Logger.load (st : Logger) (fs : FS) (fuel : ℕ) : Option Logger :=
  loadGo fs fuel { st with is_loading := true } 0

/-- Constructor `__init__`: record the configuration, create the storage
directory (no observable state here), start with no epochs and a zero
plot counter, then immediately call `load`. -/
def construct (meta : List (String × MetaInfo)) (dir : String)
    (periodic_plot : Bool) (period : ℕ) (fs : FS) (fuel : ℕ) : Option Logger :=
  Logger.load
    { meta_info_dict := meta, log_dir_path := dir, info := [],
      periodic_plot := periodic_plot, period := period,
      plot_counter := 0, is_loading := false } fs fuel

/-- Method `get_key_alias`: its body reads `self.meta_info_dict[k]` where
`k` is an unbound name (the parameter is `key`), so every call raises
NameError before any dictionary lookup; `except KeyError` does not catch
NameError. -/
def Logger.get_key_alias (st : Logger) (key : String) : Except PyErr String :=
  Except.error PyErr.nameError

/-- Zero-padding of a natural number below 1000 to three digits. -/
def pad3 (n : ℕ) : String :=
  if n < 10 then "00" ++ toString n
  else if n < 100 then "0" ++ toString n
  else toString n

/-- Python format `:.3f` on the rational model of a float: rounding to
three decimal places (half away from zero here; the binary-float
half-even detail is immaterial, as no verified property reaches a
formatted mean). -/
def fmt3 (q : ℚ) : String :=
  let n : ℤ := Int.floor (q * 1000 + 1 / 2)
  let s := if n < 0 then "-" else ""
  s ++ toString (n.natAbs / 1000) ++ "." ++ pad3 (n.natAbs % 1000)

/-- Loop body of `print_epoch_summary`: each line's f-string evaluates
`self.get_key_alias(k)` before the mean `sum(v) / len(v)`, so the
NameError from `get_key_alias` precedes any ZeroDivisionError. -/
def printLoop (st : Logger) : List (String × List ℚ) → List String × Option PyErr
  | [] => ([], Option.none)
  | (k, v) :: rest =>
    match st.get_key_alias k with
    | Except.error e => ([], some e)
    | Except.ok a =>
      if v.length = 0 then ([], some PyErr.zeroDivisionError)
      else
        let line := "\t" ++ a ++ ": " ++ fmt3 (v.sum / (v.length : ℚ))
        match printLoop st rest with
        | (lines, err) => (line :: lines, err)

/-- Method `print_epoch_summary`: the header line is printed before
`self.info[epoch]` is indexed; on success a blank line follows. -/
def Logger.print_epoch_summary (st : Logger) (e : ℤ) : List String × Option PyErr :=
  let header := "\nEpoch " ++ fmt02 e ++ " summary:"
  match pyIndex st.info e with
  | Option.none => ([header], some PyErr.indexError)
  | some d =>
    match printLoop st d with
    | (lines, some er) => (header :: lines, some er)
    | (lines, Option.none) => (header :: (lines ++ [""]), Option.none)

/-- Method `print_last_epoch_summary`: `print_epoch_summary(-1)`. -/
def Logger.print_last_epoch_summary (st : Logger) : List String × Option PyErr :=
  st.print_epoch_summary (-1)

/-- Aggregation loop of `save_epoch_summary`: per key, the mean
`sum(v) / len(v)`, raising ZeroDivisionError on an empty value list. -/
def summaryLoop : Dict ℚ → List (String × List ℚ) → Except PyErr (Dict ℚ)
  | acc, [] => Except.ok acc
  | acc, (k, v) :: rest =>
    if v.length = 0 then Except.error PyErr.zeroDivisionError
    else summaryLoop (dictSet acc k (v.sum / (v.length : ℚ))) rest

/-- Method `save_epoch_summary`: after the aggregation loop, the code
evaluates `os.path.join(self.dir_path, ...)`; its first argument
`self.dir_path` is an attribute never set on the object (`__init__` sets
`log_dir_path`), so AttributeError is raised before the path f-string or
any file write, and nothing is ever written. -/
def Logger.save_epoch_summary (st : Logger) (e : ℤ) : Option PyErr :=
  match pyIndex st.info e with
  | Option.none => some PyErr.indexError
  | some d =>
    match summaryLoop [] d with
    | Except.error er => some er
    | Except.ok _ => some PyErr.attributeError

/-- Method `save_last_epoch_summary`: `save_epoch_summary(-1)`. -/
def Logger.save_last_epoch_summary (st : Logger) : Option PyErr :=
  st.save_epoch_summary (-1)

/-- Sequential driver for repeated `log_info` calls, accumulating the
render count and stopping at the first raised exception. -/
def run_log_infos (st : Logger) : List (Dict PyVal) → Logger × ℕ × Option PyErr
  | [] => (st, 0, Option.none)
  | vals :: rest =>
    match st.log_info vals with
    | (st1, p, Option.none) =>
      match run_log_infos st1 rest with
      | (st2, q, err) => (st2, p + q, err)
    | (st1, p, some e) => (st1, p, some e)

/-- Folded form of a loop that assigns `d[k] = c k` for each `k` in `ks`:
the shape both `load_epoch`'s and `log_info`'s successful loops reduce to. -/
def setAll {α : Type} (d : Dict α) (ks : List String) (c : String → α) : Dict α :=
  ks.foldl (fun d k => dictSet d k (c k)) d

/-- Folded form of a sequence of keyed overwrites, the shape
`save_epoch`'s successful loop reduces to on the filesystem. -/
def writeAll {α : Type} (fs : Dict α) (ps : List (String × α)) : Dict α :=
  ps.foldl (fun fs p => dictSet fs p.1 p.2) fs

/-! ### Helper lemmas about the dict and list model -/

lemma setLast_getLast? {α : Type} (l : List α) (a : α) :
    (setLast l a).getLast? = some a := by
  simp [setLast, List.getLast?_concat]

lemma setLast_dropLast {α : Type} (l : List α) (a : α) :
    (setLast l a).dropLast = l.dropLast := by
  simp [setLast, List.dropLast_concat]

lemma setLast_setLast {α : Type} (l : List α) (a b : α) :
    setLast (setLast l a) b = setLast l b := by
  simp [setLast, List.dropLast_concat]

lemma setLast_concat {α : Type} (l : List α) (a b : α) :
    setLast (l ++ [a]) b = l ++ [b] := by
  simp [setLast, List.dropLast_concat]

lemma mem_of_getLast?_eq {α : Type} {l : List α} {a : α} (h : l.getLast? = some a) :
    a ∈ l := by
  have h2 : l ≠ [] := by rintro rfl; simp at h
  rw [List.getLast?_eq_getLast l h2, Option.some_inj] at h
  exact h ▸ List.getLast_mem h2

lemma setLast_of_getLast? {α : Type} {l : List α} {a : α} (h : l.getLast? = some a) :
    setLast l a = l := by
  have h2 : l ≠ [] := by rintro rfl; simp at h
  rw [List.getLast?_eq_getLast l h2, Option.some_inj] at h
  simpa [setLast, h] using List.dropLast_append_getLast h2

lemma dictGet?_set_self {α : Type} (d : Dict α) (k : String) (v : α) :
    dictGet? (dictSet d k v) k = some v := by
  induction d with
  | nil => simp [dictSet, dictGet?]
  | cons p d ih =>
    obtain ⟨k', v'⟩ := p
    by_cases h : k = k'
    · simp [dictSet, dictGet?, h]
    · simp [dictSet, dictGet?, h, ih]

lemma dictGet?_set_ne {α : Type} (d : Dict α) {k k' : String} (v : α) (h : k' ≠ k) :
    dictGet? (dictSet d k v) k' = dictGet? d k' := by
  induction d with
  | nil => simp [dictSet, dictGet?, h]
  | cons p d ih =>
    obtain ⟨k1, v1⟩ := p
    by_cases h1 : k = k1
    · subst h1; simp [dictSet, dictGet?, h]
    · by_cases h2 : k' = k1 <;> simp [dictSet, dictGet?, h1, h2, ih]

lemma mem_keys_of_dictGet? {α : Type} {d : Dict α} {k : String} {v : α}
    (h : dictGet? d k = some v) : k ∈ d.map Prod.fst := by
  induction d with
  | nil => simp [dictGet?] at h
  | cons p d ih =>
    obtain ⟨k1, v1⟩ := p
    by_cases h1 : k = k1
    · simp [h1]
    · simp only [dictGet?, if_neg h1] at h
      simp [ih h]

lemma dictGet?_isSome_of_mem_keys {α : Type} {d : Dict α} {k : String}
    (h : k ∈ d.map Prod.fst) : ∃ v, dictGet? d k = some v := by
  induction d with
  | nil => simp at h
  | cons p d ih =>
    obtain ⟨k1, v1⟩ := p
    by_cases h1 : k = k1
    · exact ⟨v1, by simp [dictGet?, h1]⟩
    · simp only [List.map_cons, List.mem_cons] at h
      rcases h with h | h

      · exact absurd h h1
      · simpa [dictGet?, h1] using ih h

lemma keys_dictSet_of_mem {α : Type} {d : Dict α} {k : String} (v : α)
    (h : k ∈ d.map Prod.fst) : (dictSet d k v).map Prod.fst = d.map Prod.fst := by
  induction d with
  | nil => simp at h
  | cons p d ih =>
    obtain ⟨k1, v1⟩ := p
    by_cases h1 : k = k1
    · simp [dictSet, h1]
    · simp only [List.map_cons, List.mem_cons] at h
      rcases h with h | h
      · exact absurd h h1
      · simp [dictSet, h1, ih h]

lemma setAll_nil {α : Type} (d : Dict α) (c : String → α) : setAll d [] c = d := rfl

lemma setAll_cons {α : Type} (d : Dict α) (k : String) (ks : List String) (c : String → α) :
    setAll d (k :: ks) c = setAll (dictSet d k (c k)) ks c := rfl

lemma dictGet?_setAll_not_mem {α : Type} {d : Dict α} {c : String → α} {k : String}
    {ks : List String} (h : k ∉ ks) :
    dictGet? (setAll d ks c) k = dictGet? d k := by
  induction ks generalizing d with
  | nil => rfl
  | cons k1 ks ih =>
    rw [setAll_cons, ih (fun hm => h (List.mem_cons_of_mem _ hm)),
      dictGet?_set_ne _ _ (fun he => h (List.mem_cons.mpr (Or.inl he)))]

lemma dictGet?_setAll_mem {α : Type} {d : Dict α} {c : String → α} {k : String}
    {ks : List String} (hnd : ks.Nodup) (h : k ∈ ks) :
    dictGet? (setAll d ks c) k = some (c k) := by
  induction ks generalizing d with
  | nil => simp at h
  | cons k1 ks ih =>
    rcases List.mem_cons.mp h with h1 | h1
    · subst h1
      rw [setAll_cons, dictGet?_setAll_not_mem (List.Nodup.not_mem hnd),
        dictGet?_set_self]
    · exact (setAll_cons _ _ _ _) ▸ ih (List.Nodup.of_cons hnd) h1

lemma keys_setAll {α : Type} {d : Dict α} {c : String → α} {ks : List String}
    (h : ∀ k ∈ ks, k ∈ d.map Prod.fst) :
    (setAll d ks c).map Prod.fst = d.map Prod.fst := by
  induction ks generalizing d with
  | nil => rfl
  | cons k1 ks ih =>
    rw [setAll_cons, ih, keys_dictSet_of_mem _ (h k1 (List.mem_cons_self _ _))]
    intro k hk
    rw [keys_dictSet_of_mem _ (h k1 (List.mem_cons_self _ _))]
    exact h k (List.mem_cons_of_mem _ hk)

lemma setAll_cons_not_mem {α : Type} {d : Dict α} {c : String → α} {k : String} {v : α}
    {ks : List String} (h : k ∉ ks) :
    setAll ((k, v) :: d) ks c = (k, v) :: setAll d ks c := by
  induction ks generalizing d with
  | nil => rfl
  | cons k1 ks ih =>
    have h1 : k1 ≠ k := fun he => h (he ▸ List.mem_cons_self _ _)
    rw [setAll_cons, setAll_cons]
    have h2 : dictSet ((k, v) :: d) k1 (c k1) = (k, v) :: dictSet d k1 (c k1) := by
      simp [dictSet, h1]
    rw [h2, ih (fun hm => h (List.mem_cons_of_mem _ hm))]

lemma setAll_fresh {α : Type} (init c : String → α) {ks : List String} (hnd : ks.Nodup) :
    setAll (ks.map fun k => (k, init k)) ks c = ks.map fun k => (k, c k) := by
  induction ks with
  | nil => rfl
  | cons k ks ih =>
    have hk : k ∉ ks := List.Nodup.not_mem hnd
    rw [List.map_cons, setAll_cons]
    have h2 : dictSet ((k, init k) :: ks.map fun k => (k, init k)) k (c k) =
        (k, c k) :: ks.map fun k => (k, init k) := by
      simp [dictSet]
    rw [h2, setAll_cons_not_mem hk, ih (List.Nodup.of_cons hnd), List.map_cons]

lemma writeAll_nil {α : Type} (fs : Dict α) : writeAll fs [] = fs := rfl

lemma writeAll_cons {α : Type} (fs : Dict α) (p : String × α) (ps : List (String × α)) :
    writeAll fs (p :: ps) = writeAll (dictSet fs p.1 p.2) ps := rfl

lemma dictGet?_writeAll_not_mem {α : Type} {fs : Dict α} {ps : List (String × α)}
    {p : String} (h : p ∉ ps.map Prod.fst) :
    dictGet? (writeAll fs ps) p = dictGet? fs p := by
  induction ps generalizing fs with
  | nil => rfl
  | cons q ps ih =>
    simp only [List.map_cons, List.mem_cons, not_or] at h
    rw [writeAll_cons, ih h.2, dictGet?_set_ne _ _ h.1]

lemma dictGet?_writeAll_mem {α : Type} {fs : Dict α} {ps : List (String × α)}
    {p : String} {v : α} (hnd : (ps.map Prod.fst).Nodup) (h : (p, v) ∈ ps) :
    dictGet? (writeAll fs ps) p = some v := by
  induction ps generalizing fs with
  | nil => simp at h
  | cons q ps ih =>
    rcases List.mem_cons.mp h with h1 | h1
    · subst h1
      rw [writeAll_cons]
      have hp : p ∉ ps.map Prod.fst := by
        simpa using List.Nodup.not_mem hnd
      rw [dictGet?_writeAll_not_mem hp, dictGet?_set_self]
    · exact (writeAll_cons _ _ _) ▸ ih (List.Nodup.of_cons hnd) h1

lemma fileName_injective (dir : String) (e : ℤ) {a b : String}
    (h : fileName dir a e = fileName dir b e) : a = b := by
  have h2 : (fileName dir a e).data = (fileName dir b e).data := congrArg String.data h
  simp only [fileName, String.data_append, List.append_assoc] at h2
  have h3 := List.append_cancel_left h2
  have h4 := List.append_cancel_left h3
  have h5 := List.append_cancel_right h4
  cases a; cases b; simp_all

/-! ### Behaviour of the operation loops -/

lemma loadEpochGo_success (dir : String) (e : ℤ) (fs : FS) {ks : List String}
    {info : List EpochRec} {d : EpochRec} {c : String → List ℚ}
    (hd : info.getLast? = some d)
    (hfiles : ∀ k ∈ ks, dictGet? fs (fileName dir k e) = some (c k)) :
    loadEpochGo dir e fs ks info = (setLast info (setAll d ks c), Option.none) := by
  induction ks generalizing info d with
  | nil => simp [loadEpochGo, setAll_nil, setLast_of_getLast? hd]
  | cons k ks ih =>
    have h1 := hfiles k (List.mem_cons_self _ _)
    simp only [loadEpochGo, h1, hd]
    rw [ih (setLast_getLast? _ _) (fun k' hk' => hfiles k' (List.mem_cons_of_mem _ hk')),
      setLast_setLast, setAll_cons]

lemma loadEpochGo_partial (dir : String) (e : ℤ) (fs : FS) {ks1 : List String}
    {k : String} {ks2 : List String} {info : List EpochRec} {d : EpochRec}
    {c : String → List ℚ}
    (hd : info.getLast? = some d)
    (hpresent : ∀ k' ∈ ks1, dictGet? fs (fileName dir k' e) = some (c k'))
    (hmiss : dictGet? fs (fileName dir k e) = Option.none) :
    loadEpochGo dir e fs (ks1 ++ k :: ks2) info =
      (setLast info (setAll d ks1 c), some PyErr.fileNotFoundError) := by
  induction ks1 generalizing info d with
  | nil => simp [loadEpochGo, hmiss, setAll_nil, setLast_of_getLast? hd]
  | cons k1 ks1 ih =>
    have h1 := hpresent k1 (List.mem_cons_self _ _)
    simp only [List.cons_append, loadEpochGo, h1, hd, List.append_eq]
    rw [ih (setLast_getLast? _ _) (fun k' hk' => hpresent k' (List.mem_cons_of_mem _ hk')),
      setLast_setLast, setAll_cons]

lemma loadEpochGo_fnf (dir : String) (e : ℤ) (fs : FS) {ks : List String}
    {info : List EpochRec} {d : EpochRec}
    (hd : info.getLast? = some d)
    (hmiss : ∃ k ∈ ks, dictGet? fs (fileName dir k e) = Option.none) :
    ∃ info', loadEpochGo dir e fs ks info = (info', some PyErr.fileNotFoundError) ∧
      info'.dropLast = info.dropLast := by
  induction ks generalizing info d with
  | nil => simp at hmiss
  | cons k1 ks ih =>
    cases h1 : dictGet? fs (fileName dir k1 e) with
    | none => exact ⟨info, by simp [loadEpochGo, h1], rfl⟩
    | some content =>
      have hm2 : ∃ k ∈ ks, dictGet? fs (fileName dir k e) = Option.none := by
        rcases hmiss with ⟨k, hk, hkm⟩
        rcases List.mem_cons.mp hk with rfl | h2
        · rw [h1] at hkm; cases hkm
        · exact ⟨k, h2, hkm⟩
      obtain ⟨info', hres, hdrop⟩ := ih (d := dictSet d k1 content) (setLast_getLast? _ _) hm2
      refine ⟨info', ?_, ?_⟩
      · simp only [loadEpochGo, h1, hd]; exact hres
      · rw [hdrop, setLast_dropLast]

lemma saveEpochGo_success (dir : String) (e : ℤ) {info : List EpochRec} {d : EpochRec}
    {w : String → List ℚ} (hd : pyIndex info e = some d) :
    ∀ {ks : List String} (fs : FS), (∀ k ∈ ks, dictGet? d k = some (w k)) →
    saveEpochGo dir e info ks fs =
      (writeAll fs (ks.map fun k => (fileName dir k e, w k)), Option.none) := by
  intro ks
  induction ks with
  | nil => intro fs _; simp [saveEpochGo, writeAll_nil]
  | cons k ks ih =>
    intro fs hvals
    have h1 := hvals k (List.mem_cons_self _ _)
    simp only [saveEpochGo, hd, h1, List.map_cons, writeAll_cons]
    exact ih _ (fun k' h' => hvals k' (List.mem_cons_of_mem _ h'))

lemma logInfoGo_success {vals : Dict PyVal} {ks : List String} {info info' : List EpochRec}
    (hnd : ks.Nodup) (hrun : logInfoGo vals ks info = (info', Option.none)) {d : EpochRec}
    (hd : info.getLast? = some d) :
    info'.dropLast = info.dropLast ∧
    ∃ d', info'.getLast? = some d' ∧ d'.map Prod.fst = d.map Prod.fst ∧
      (∀ k ∈ ks, ∃ l x, dictGet? d k = some l ∧ dictGet? vals k = some (PyVal.float x) ∧
        dictGet? d' k = some (l ++ [x])) ∧
      (∀ k, k ∉ ks → dictGet? d' k = dictGet? d k) := by
  induction ks generalizing info d with
  | nil =>
    simp only [logInfoGo, Prod.mk.injEq] at hrun
    obtain ⟨rfl, -⟩ := hrun
    exact ⟨rfl, d, hd, rfl, by simp, fun k _ => rfl⟩
  | cons k ks ih =>
    cases hv : dictGet? vals k with
    | none => simp [logInfoGo, hv] at hrun
    | some v =>
      cases v with
      | float x =>
        simp only [logInfoGo, hv, hd] at hrun
        cases hl : dictGet? d k with
        | none => rw [hl] at hrun; cases hrun
        | some l =>
          rw [hl] at hrun
          have hk_not : k ∉ ks := List.Nodup.not_mem hnd
          obtain ⟨hdrop, d', hd', hkeys', hmem', hnot'⟩ :=
            ih (List.Nodup.of_cons hnd) hrun (setLast_getLast? _ _)
          refine ⟨by rw [hdrop, setLast_dropLast], d', hd', ?_, ?_, ?_⟩
          · rw [hkeys', keys_dictSet_of_mem _ (mem_keys_of_dictGet? hl)]
          · intro k' hk'
            rcases List.mem_cons.mp hk' with rfl | h2
            · exact ⟨l, x, hl, hv, by rw [hnot' k' hk_not, dictGet?_set_self]⟩
            · obtain ⟨l', x', hl', hv', hd'k⟩ := hmem' k' h2
              have hne : k' ≠ k := fun he => hk_not (he ▸ h2)
              rw [dictGet?_set_ne _ _ hne] at hl'
              exact ⟨l', x', hl', hv', hd'k⟩
          · intro k' hk'
            have h2 : k' ∉ ks := fun hm => hk' (List.mem_cons_of_mem _ hm)
            have hne : k' ≠ k := fun he => hk' (List.mem_cons.mpr (Or.inl he))
            rw [hnot' k' h2, dictGet?_set_ne _ _ hne]
      | int n => simp [logInfoGo, hv] at hrun
      | str s => simp [logInfoGo, hv] at hrun
      | bool b => simp [logInfoGo, hv] at hrun
      | none => simp [logInfoGo, hv] at hrun

lemma logInfoGo_validation {vals : Dict PyVal} {ks : List String} {info : List EpochRec}
    {d : EpochRec} (hd : info.getLast? = some d)
    (hkeys : ∀ k ∈ ks, (dictGet? d k).isSome = true)
    (hbad : ∃ k ∈ ks, dictGet? vals k = Option.none ∨
      ∃ v, dictGet? vals k = some v ∧ v.isFloat = false) :
    ∃ info' er, logInfoGo vals ks info = (info', some er) ∧
      (er = PyErr.keyError ∨ er = PyErr.assertionError) := by
  induction ks generalizing info d with
  | nil => simp at hbad
  | cons k ks ih =>
    cases hv : dictGet? vals k with
    | none => exact ⟨info, PyErr.keyError, by simp [logInfoGo, hv], Or.inl rfl⟩
    | some v =>
      cases v with
      | float x =>
        have hbad2 : ∃ k' ∈ ks, dictGet? vals k' = Option.none ∨
            ∃ v, dictGet? vals k' = some v ∧ v.isFloat = false := by
          rcases hbad with ⟨k', hk', hb⟩
          rcases List.mem_cons.mp hk' with rfl | h2
          · rcases hb with hb | ⟨v', hv', hfl⟩
            · rw [hv] at hb; cases hb
            · rw [hv] at hv'
              obtain rfl := Option.some_inj.mp hv'
              simp [PyVal.isFloat] at hfl
          · exact ⟨k', h2, hb⟩
        obtain ⟨l, hl⟩ := Option.isSome_iff_exists.mp (hkeys k (List.mem_cons_self _ _))
        simp only [logInfoGo, hv, hd, hl]
        refine ih (setLast_getLast? _ _) (fun k' hk' => ?_) hbad2
        by_cases he : k' = k
        · subst he; simp [dictGet?_set_self]
        · rw [dictGet?_set_ne _ _ he]
          exact hkeys k' (List.mem_cons_of_mem _ hk')
      | int n => exact ⟨info, PyErr.assertionError, by simp [logInfoGo, hv], Or.inr rfl⟩
      | str s => exact ⟨info, PyErr.assertionError, by simp [logInfoGo, hv], Or.inr rfl⟩
      | bool b => exact ⟨info, PyErr.assertionError, by simp [logInfoGo, hv], Or.inr rfl⟩
      | none => exact ⟨info, PyErr.assertionError, by simp [logInfoGo, hv], Or.inr rfl⟩

lemma logInfoGo_keysComplete {vals : Dict PyVal} {K : List String} {ks : List String}
    {info : List EpochRec} (hks : ∀ k ∈ ks, k ∈ K)
    (hinfo : ∀ d ∈ info, d.map Prod.fst = K) :
    ∀ d ∈ (logInfoGo vals ks info).1, d.map Prod.fst = K := by
  induction ks generalizing info with
  | nil => simpa [logInfoGo] using hinfo
  | cons k ks ih =>
    cases hv : dictGet? vals k with
    | none => simpa [logInfoGo, hv] using hinfo
    | some v =>
      cases v with
      | float x =>
        cases hd : info.getLast? with
        | none => simpa [logInfoGo, hv, hd] using hinfo
        | some d0 =>
          cases hl : dictGet? d0 k with
          | none => simpa [logInfoGo, hv, hd, hl] using hinfo
          | some l =>
            simp only [logInfoGo, hv, hd, hl]
            refine ih (fun k' h' => hks k' (List.mem_cons_of_mem _ h')) ?_
            intro d hdm
            rw [setLast] at hdm
            rcases List.mem_append.mp hdm with h1 | h1
            · exact hinfo d ((List.dropLast_sublist info).subset h1)
            · rw [List.mem_singleton] at h1
              subst h1
              rw [keys_dictSet_of_mem _ (mem_keys_of_dictGet? hl)]
              exact hinfo d0 (mem_of_getLast?_eq hd)
      | int n => simpa [logInfoGo, hv] using hinfo
      | str s => simpa [logInfoGo, hv] using hinfo
      | bool b => simpa [logInfoGo, hv] using hinfo
      | none => simpa [logInfoGo, hv] using hinfo

lemma loadEpochGo_keysComplete {dir : String} {e : ℤ} {fs : FS} {K : List String}
    {ks : List String} {info : List EpochRec} (hks : ∀ k ∈ ks, k ∈ K)
    (hinfo : ∀ d ∈ info, d.map Prod.fst = K) :
    ∀ d ∈ (loadEpochGo dir e fs ks info).1, d.map Prod.fst = K := by
  induction ks generalizing info with
  | nil => simpa [loadEpochGo] using hinfo
  | cons k ks ih =>
    cases hf : dictGet? fs (fileName dir k e) with
    | none => simpa [loadEpochGo, hf] using hinfo
    | some content =>
      cases hd : info.getLast? with
      | none => simpa [loadEpochGo, hf, hd] using hinfo
      | some d0 =>
        simp only [loadEpochGo, hf, hd]
        refine ih (fun k' h' => hks k' (List.mem_cons_of_mem _ h')) ?_
        intro d hdm
        rw [setLast] at hdm
        rcases List.mem_append.mp hdm with h1 | h1
        · exact hinfo d ((List.dropLast_sublist info).subset h1)
        · rw [List.mem_singleton] at h1
          subst h1
          rw [keys_dictSet_of_mem _ (hinfo d0 (mem_of_getLast?_eq hd) ▸
            hks k (List.mem_cons_self _ _))]
          exact hinfo d0 (mem_of_getLast?_eq hd)

/-! ### Behaviour of the methods built from the loops -/

lemma log_info_info (st : Logger) (vals : Dict PyVal) :
    (st.log_info vals).1.info = (logInfoGo vals st.keys st.info).1 ∧
    (st.log_info vals).1.meta_info_dict = st.meta_info_dict := by
  simp only [Logger.log_info]
  split
  · rename_i info' e heq
    simp [heq]
  · rename_i info' heq
    by_cases hpp : st.periodic_plot = true <;>
      by_cases hz : st.period = 0 <;> simp [hpp, hz, heq]

lemma log_info_success_fields {st : Logger} {vals : Dict PyVal} {st' : Logger} {p : ℕ}
    (hpp : st.periodic_plot = true) (hz : st.period ≠ 0)
    (h : st.log_info vals = (st', p, Option.none)) :
    st'.periodic_plot = st.periodic_plot ∧ st'.period = st.period ∧
    st'.plot_counter = (st.plot_counter + 1) % st.period ∧
    p = if (st.plot_counter + 1) % st.period = 0 then 1 else 0 := by
  simp only [Logger.log_info] at h
  split at h
  · simp at h
  · rw [if_pos hpp, if_neg hz] at h
    rw [Prod.mk.injEq, Prod.mk.injEq] at h
    obtain ⟨hst, hp, -⟩ := h
    subst hst
    exact ⟨rfl, rfl, rfl, hp.symm⟩

lemma mem_of_dictGet? {α : Type} {d : Dict α} {k : String} {v : α}
    (h : dictGet? d k = some v) : (k, v) ∈ d := by
  induction d with
  | nil => simp [dictGet?] at h
  | cons p d ih =>
    obtain ⟨k1, v1⟩ := p
    by_cases h1 : k = k1
    · subst h1
      simp [dictGet?] at h
      subst h
      exact List.mem_cons_self _ _
    · simp only [dictGet?, if_neg h1] at h
      exact List.mem_cons_of_mem _ (ih h)

lemma dictGet?_eq_of_mem_nodup {α : Type} {d : Dict α}
    (hnd : (d.map Prod.fst).Nodup) {k : String} {v : α} (h : (k, v) ∈ d) :
    dictGet? d k = some v := by
  induction d with
  | nil => simp at h
  | cons p d ih =>
    obtain ⟨k1, v1⟩ := p
    rcases List.mem_cons.mp h with h1 | h1
    · obtain ⟨rfl, rfl⟩ := Prod.mk.injEq .. |>.mp h1
      simp [dictGet?]
    · have hk1 : k ≠ k1 := by
        rintro rfl
        exact (List.Nodup.not_mem (by simpa using hnd))
          (List.mem_map_of_mem Prod.fst h1)
      simp only [dictGet?, if_neg hk1]
      exact ih (List.Nodup.of_cons hnd) h1

lemma getLast?_eq_none_imp {α : Type} {l : List α} (h : l.getLast? = Option.none) :
    l = [] := by
  cases l with
  | nil => rfl
  | cons a l => rw [List.getLast?_eq_getLast _ (by simp)] at h; cases h

lemma exists_getLast?_of_ne_nil {α : Type} {l : List α} (h : l ≠ []) :
    ∃ a, l.getLast? = some a := by
  cases l with
  | nil => exact absurd rfl h
  | cons a l => exact ⟨_, List.getLast?_eq_getLast _ (by simp)⟩

lemma logInfoGo_nil (vals : Dict PyVal) (ks : List String) :
    (logInfoGo vals ks ([] : List EpochRec)).1 = [] := by
  cases ks with
  | nil => rfl
  | cons k ks =>
    cases hv : dictGet? vals k with
    | none => simp [logInfoGo, hv]
    | some v => cases v <;> simp [logInfoGo, hv]

lemma logInfoGo_ok {vals : Dict PyVal} {ks : List String} {info : List EpochRec}
    {d : EpochRec} (hd : info.getLast? = some d)
    (hkeys : ∀ k ∈ ks, (dictGet? d k).isSome = true)
    (hvals : ∀ k ∈ ks, ∃ x, dictGet? vals k = some (PyVal.float x)) :
    ∃ info', logInfoGo vals ks info = (info', Option.none) := by
  induction ks generalizing info d with
  | nil => exact ⟨info, rfl⟩
  | cons k ks ih =>
    obtain ⟨x, hv⟩ := hvals k (List.mem_cons_self _ _)
    obtain ⟨l, hl⟩ := Option.isSome_iff_exists.mp (hkeys k (List.mem_cons_self _ _))
    simp only [logInfoGo, hv, hd, hl]
    refine ih (setLast_getLast? _ _) (fun k' hk' => ?_)
      (fun k' hk' => hvals k' (List.mem_cons_of_mem _ hk'))
    by_cases he : k' = k
    · subst he; simp [dictGet?_set_self]
    · rw [dictGet?_set_ne _ _ he]
      exact hkeys k' (List.mem_cons_of_mem _ hk')

lemma new_epoch_fst (st : Logger) :
    (st.new_epoch).1 = { st with info := st.info ++ [st.emptyEpoch] } := rfl

lemma new_epoch_renders (st : Logger) :
    (st.new_epoch).2 = if !st.is_loading && st.periodic_plot then 1 else 0 := rfl

lemma load_epoch_of_go {st : Logger} {fs : FS} {e : ℤ} {info' : List EpochRec}
    {err : Option PyErr}
    (h : loadEpochGo st.log_dir_path e fs st.keys st.info = (info', err)) :
    st.load_epoch fs e = ({ st with info := info' }, err) := by
  simp only [Logger.load_epoch, h]

lemma loadGo_step_fnf {fs : FS} {fuel : ℕ} {st st2 : Logger} {e : ℕ}
    (h : (st.new_epoch).1.load_epoch fs (e : ℤ) = (st2, some PyErr.fileNotFoundError)) :
    loadGo fs (fuel + 1) st e =
      some { st2 with info := st2.info.dropLast, is_loading := false } := by
  simp only [loadGo, h]

lemma loadGo_step_ok {fs : FS} {fuel : ℕ} {st st2 : Logger} {e : ℕ}
    (h : (st.new_epoch).1.load_epoch fs (e : ℤ) = (st2, Option.none)) :
    loadGo fs (fuel + 1) st e = loadGo fs fuel st2 (e + 1) := by
  simp only [loadGo, h]

lemma loadGo_spec (fs : FS) (c : String → ℕ → List ℚ) :
    ∀ (κ : ℕ) (fuel : ℕ) (st : Logger) (e₀ : ℕ),
    st.keys.Nodup → κ < fuel →
    (∀ j, j < κ → ∀ k ∈ st.keys,
      dictGet? fs (fileName st.log_dir_path k ((e₀ + j : ℕ) : ℤ)) = some (c k (e₀ + j))) →
    (∃ k ∈ st.keys,
      dictGet? fs (fileName st.log_dir_path k ((e₀ + κ : ℕ) : ℤ)) = Option.none) →
    loadGo fs fuel st e₀ = some { st with
      info := st.info ++
        (List.range κ).map (fun j => st.keys.map (fun k => (k, c k (e₀ + j)))),
      is_loading := false } := by
  intro κ
  induction κ with
  | zero =>
    intro fuel st e₀ hnd hfuel hpres hmiss
    obtain ⟨f, rfl⟩ : ∃ f, fuel = f + 1 := ⟨fuel - 1, by omega⟩
    have hgl : (st.info ++ [st.emptyEpoch]).getLast? = some st.emptyEpoch :=
      List.getLast?_concat _
    obtain ⟨info', hres, hdrop⟩ :=
      loadEpochGo_fnf st.log_dir_path ((e₀ : ℕ) : ℤ) fs hgl hmiss
    have hle : (st.new_epoch).1.load_epoch fs ((e₀ : ℕ) : ℤ) =
        ({ (st.new_epoch).1 with info := info' }, some PyErr.fileNotFoundError) :=
      load_epoch_of_go hres
    rw [loadGo_step_fnf hle]
    have hinfo : info'.dropLast = st.info := by
      rw [hdrop]
      exact List.dropLast_concat
    simp only [new_epoch_fst, hinfo, List.range_zero, List.map_nil, List.append_nil]
  | succ κ ih =>
    intro fuel st e₀ hnd hfuel hpres hmiss
    obtain ⟨f, rfl⟩ : ∃ f, fuel = f + 1 := ⟨fuel - 1, by omega⟩
    have hgl : (st.info ++ [st.emptyEpoch]).getLast? = some st.emptyEpoch :=
      List.getLast?_concat _
    have hfiles0 : ∀ k ∈ st.keys,
        dictGet? fs (fileName st.log_dir_path k ((e₀ : ℕ) : ℤ)) = some (c k e₀) :=
      fun k hk => hpres 0 (Nat.succ_pos κ) k hk
    have hload := loadEpochGo_success st.log_dir_path ((e₀ : ℕ) : ℤ) fs hgl hfiles0
    have hle : (st.new_epoch).1.load_epoch fs ((e₀ : ℕ) : ℤ) =
        ({ (st.new_epoch).1 with
            info := setLast (st.info ++ [st.emptyEpoch])
              (setAll st.emptyEpoch st.keys (fun k => c k e₀)) }, Option.none) :=
      load_epoch_of_go hload
    rw [loadGo_step_ok hle]
    have hsetAll : setAll st.emptyEpoch st.keys (fun k => c k e₀) =
        st.keys.map (fun k => (k, c k e₀)) :=
      @setAll_fresh (List ℚ) (fun _ => ([] : List ℚ)) (fun k => c k e₀) st.keys hnd
    have hS : setLast (st.info ++ [st.emptyEpoch])
        (setAll st.emptyEpoch st.keys (fun k => c k e₀)) =
        st.info ++ [st.keys.map (fun k => (k, c k e₀))] := by
      rw [setLast_concat, hsetAll]
    rw [new_epoch_fst, hS]
    have hstep := ih f
      { st with info := st.info ++ [st.keys.map (fun k => (k, c k e₀))] } (e₀ + 1)
      hnd (by omega)
      (fun j hj k hk => by
        have h2 := hpres (j + 1) (by omega) k hk
        have h3 : e₀ + (j + 1) = e₀ + 1 + j := by omega
        rw [h3] at h2
        exact h2)
      (by
        obtain ⟨k, hk, hkm⟩ := hmiss
        refine ⟨k, hk, ?_⟩
        have h3 : e₀ + (κ + 1) = e₀ + 1 + κ := by omega
        rw [h3] at hkm
        exact hkm)
    rw [hstep]
    have hlist : (st.info ++ [st.keys.map (fun k => (k, c k e₀))]) ++
        (List.range κ).map (fun j => st.keys.map (fun k => (k, c k (e₀ + 1 + j)))) =
        st.info ++
          (List.range (κ + 1)).map (fun j => st.keys.map (fun k => (k, c k (e₀ + j)))) := by
      rw [List.range_succ_eq_map, List.map_cons, List.map_map, List.append_assoc,
        List.singleton_append]
      congr 2
      refine List.map_congr_left ?_
      intro j hj
      have h3 : e₀ + 1 + j = e₀ + (j + 1) := by omega
      simp [Function.comp, Nat.succ_eq_add_one, h3]
    rw [← hlist]
    simp [Logger.keys]

lemma log_info_of_go_err {st : Logger} {vals : Dict PyVal} {info' : List EpochRec}
    {er : PyErr} (h : logInfoGo vals st.keys st.info = (info', some er)) :
    st.log_info vals = ({ st with info := info' }, 0, some er) := by
  simp only [Logger.log_info, h]

lemma log_info_of_go_ok {st : Logger} {vals : Dict PyVal} {info' : List EpochRec}
    (h : logInfoGo vals st.keys st.info = (info', Option.none))
    (hper : st.periodic_plot = true → st.period ≠ 0) :
    ∃ st' p, st.log_info vals = (st', p, Option.none) ∧ st'.info = info' := by
  simp only [Logger.log_info, h]
  by_cases hpp : st.periodic_plot = true
  · rw [if_pos hpp, if_neg (hper hpp)]
    exact ⟨_, _, rfl, rfl⟩
  · rw [if_neg hpp]
    exact ⟨_, _, rfl, rfl⟩

lemma log_info_success_go {st : Logger} {vals : Dict PyVal} {st' : Logger} {p : ℕ}
    (h : st.log_info vals = (st', p, Option.none)) :
    logInfoGo vals st.keys st.info = (st'.info, Option.none) := by
  simp only [Logger.log_info] at h
  split at h
  · simp at h
  · rename_i info' heq
    by_cases hpp : st.periodic_plot = true
    · by_cases hz : st.period = 0
      · rw [if_pos hpp, if_pos hz] at h; simp at h
      · rw [if_pos hpp, if_neg hz] at h
        rw [Prod.mk.injEq, Prod.mk.injEq] at h
        obtain ⟨hst, -, -⟩ := h
        subst hst
        exact heq
    · rw [if_neg hpp] at h
      rw [Prod.mk.injEq, Prod.mk.injEq] at h
      obtain ⟨hst, -, -⟩ := h
      subst hst
      exact heq

lemma summaryLoop_ok {d : List (String × List ℚ)}
    (hne : ∀ p ∈ d, (p.2 : List ℚ) ≠ []) :
    ∀ acc, ∃ s, summaryLoop acc d = Except.ok s := by
  induction d with
  | nil => exact fun acc => ⟨acc, rfl⟩
  | cons p d ih =>
    intro acc
    obtain ⟨k, v⟩ := p
    have hv : v ≠ [] := hne (k, v) (List.mem_cons_self _ _)
    have hlen : ¬ v.length = 0 := by simpa using hv
    simp only [summaryLoop, if_neg hlen]
    exact ih (fun q hq => hne q (List.mem_cons_of_mem _ hq)) _

lemma summaryLoop_zero {d : List (String × List ℚ)}
    (hz : ∃ p ∈ d, (p.2 : List ℚ) = []) :
    ∀ acc, summaryLoop acc d = Except.error PyErr.zeroDivisionError := by
  induction d with
  | nil => simp at hz
  | cons p d ih =>
    intro acc
    obtain ⟨k, v⟩ := p
    by_cases hv : v.length = 0
    · simp [summaryLoop, hv]
    · have hz2 : ∃ q ∈ d, (q.2 : List ℚ) = [] := by
        rcases hz with ⟨q, hq, hqz⟩
        rcases List.mem_cons.mp hq with h1 | h2
        · subst h1
          exact absurd (by simpa using congrArg List.length hqz) hv
        · exact ⟨q, h2, hqz⟩
      simp only [summaryLoop, if_neg hv]
      exact ih hz2 _

lemma run_log_infos_renders : ∀ (ins : List (Dict PyVal)) {st st' : Logger} {q : ℕ},
    run_log_infos st ins = (st', q, Option.none) →
    st.periodic_plot = true → st.period ≠ 0 → st.plot_counter < st.period →
    q = (st.plot_counter + ins.length) / st.period := by
  intro ins
  induction ins with
  | nil =>
    intro st st' q h hpp hz hc
    simp only [run_log_infos, Prod.mk.injEq] at h
    obtain ⟨-, hq, -⟩ := h
    subst hq
    simp [Nat.div_eq_of_lt hc]
  | cons v ins ih =>
    intro st st' q h hpp hz hc
    simp only [run_log_infos] at h
    split at h
    case h_2 st1 p e hli => simp at h
    case h_1 st1 p hli =>
      rw [Prod.mk.injEq, Prod.mk.injEq] at h
      obtain ⟨-, hq, herr⟩ := h
      subst hq
      obtain ⟨hpp1, hz1, hcnt1, hp⟩ := log_info_success_fields hpp hz hli
      have hP : 0 < st.period := Nat.pos_of_ne_zero hz
      have hc1 : st1.plot_counter < st1.period := by
        rw [hcnt1, hz1]; exact Nat.mod_lt _ hP
      have hq' : (run_log_infos st1 ins).2.1 = (st1.plot_counter + ins.length) / st1.period := by
        have hrun : run_log_infos st1 ins =
            ((run_log_infos st1 ins).1, (run_log_infos st1 ins).2.1, Option.none) := by
          rw [← herr]
        exact ih hrun (by rw [hpp1, hpp]) (by rw [hz1]; exact hz) hc1
      rw [hq', hcnt1, hz1, hp]
      by_cases h0 : (st.plot_counter + 1) % st.period = 0
      · have hcp : st.plot_counter + 1 = st.period := by
          rcases Nat.lt_or_ge (st.plot_counter + 1) st.period with hlt | hge
          · rw [Nat.mod_eq_of_lt hlt] at h0; omega
          · omega
        rw [if_pos h0, h0, List.length_cons]
        have h2 : st.plot_counter + (ins.length + 1) = ins.length + st.period := by omega
        rw [h2, Nat.add_div_right _ hP, Nat.zero_add]
        omega
      · have hlt : st.plot_counter + 1 < st.period := by
          rcases Nat.lt_or_ge (st.plot_counter + 1) st.period with hlt | hge
          · exact hlt
          · have : st.plot_counter + 1 = st.period := by omega
            rw [this, Nat.mod_self] at h0
            exact absurd rfl h0
        rw [if_neg h0, Nat.mod_eq_of_lt hlt, List.length_cons, Nat.zero_add]
        congr 1
        omega

/-! ### Claim theorems -/

/-- C1 counterexample: constructing over an empty directory yields a store
with no epochs at all — `load` deletes the speculative epoch 0 when
`load_epoch` fails, leaving `info = []` rather than the single empty open
epoch 0 the claim requires. -/
theorem construct_counterexample :
    (construct [("loss", ⟨Option.none, Option.none⟩)] "logs" true 100 [] 5).map
        Logger.info = some [] ∧
      some ([] : List EpochRec) ≠ some [[("loss", ([] : List ℚ))]] := by
  exact ⟨rfl, by decide⟩

/-- C1 (amended): Construct runs the resume protocol once; when epochs
0..k-1 are fully persisted and some declared key's file for epoch k is
missing, the persisted epochs are loaded into memory in order and the store
holds exactly those k epochs.  The speculative epoch the loop starts for
index k is deleted by the FileNotFoundError handler, so no empty open epoch
remains after construction (an empty directory yields an empty store);
`new_epoch` must be called before recording. -/
theorem construct_resume (meta : List (String × MetaInfo)) (dir : String)
    (periodic_plot : Bool) (period : ℕ) (fs : FS) (c : String → ℕ → List ℚ)
    (κ fuel : ℕ)
    (hnd : (meta.map Prod.fst).Nodup)
    (hfuel : κ < fuel)
    (hpresent : ∀ j, j < κ → ∀ k ∈ meta.map Prod.fst,
      dictGet? fs (fileName dir k (j : ℤ)) = some (c k j))
    (hmiss : ∃ k ∈ meta.map Prod.fst,
      dictGet? fs (fileName dir k (κ : ℤ)) = Option.none) :
    construct meta dir periodic_plot period fs fuel =
      some { meta_info_dict := meta, log_dir_path := dir,
             info := (List.range κ).map
               (fun j => (meta.map Prod.fst).map (fun k => (k, c k j))),
             periodic_plot := periodic_plot, period := period,
             plot_counter := 0, is_loading := false } := by
  have h := loadGo_spec fs c κ fuel
    ⟨meta, dir, [], periodic_plot, period, 0, true⟩ 0
    (by simpa [Logger.keys] using hnd) hfuel
    (fun j hj k hk => by
      have h2 := hpresent j hj k (by simpa [Logger.keys] using hk)
      simpa [Logger.keys, Nat.zero_add] using h2)
    (by
      obtain ⟨k, hk, hkm⟩ := hmiss
      exact ⟨k, by simpa [Logger.keys] using hk, by simpa [Nat.zero_add] using hkm⟩)
  show loadGo fs fuel ⟨meta, dir, [], periodic_plot, period, 0, true⟩ 0 = _
  rw [h]
  simp [Logger.keys]

/-- Witness for the amended C1, mirroring the spec's example: keys loss and
acc fully persisted for epochs 0 and 1, nothing for epoch 2; the store ends
with exactly the two loaded epochs. -/
theorem construct_resume_witness :
    (([("loss", (⟨Option.none, Option.none⟩ : MetaInfo)),
        ("acc", ⟨Option.none, Option.none⟩)].map Prod.fst).Nodup) ∧
    construct [("loss", ⟨Option.none, Option.none⟩), ("acc", ⟨Option.none, Option.none⟩)]
        "logs" true 100
        [("logs/loss_00.json", [(1 : ℚ)]), ("logs/acc_00.json", [2]),
          ("logs/loss_01.json", [3]), ("logs/acc_01.json", [4])] 5 =
      some { meta_info_dict := [("loss", ⟨Option.none, Option.none⟩),
               ("acc", ⟨Option.none, Option.none⟩)],
             log_dir_path := "logs",
             info := (List.range 2).map (fun j =>
               ([("loss", (⟨Option.none, Option.none⟩ : MetaInfo)),
                 ("acc", ⟨Option.none, Option.none⟩)].map Prod.fst).map
                 (fun k => (k, (fun k j => if k = "loss"
                   then (if j = 0 then [(1 : ℚ)] else [3])
                   else (if j = 0 then [2] else [4])) k j))),
             periodic_plot := true, period := 100,
             plot_counter := 0, is_loading := false } :=
  ⟨by decide, construct_resume _ _ _ _ _ _ 2 5 (by decide) (by decide)
    (by decide) (by decide)⟩

/-- C3 counterexample: with declared keys loss and acc, a `log_info` call
supplying only loss appends to loss and then raises KeyError on acc,
leaving the open epoch with sequences of lengths 1 and 0 — a partial
record persists, refuting the claim that after any RecordValue call every
declared key's sequence in the open epoch has the same length. -/
theorem log_info_partial_record_counterexample :
    (⟨[("loss", ⟨Option.none, Option.none⟩), ("acc", ⟨Option.none, Option.none⟩)],
        "logs", [[("loss", []), ("acc", [])]], true, 100, 0,
        false⟩ : Logger).log_info [("loss", PyVal.float 1)] =
      (⟨[("loss", ⟨Option.none, Option.none⟩), ("acc", ⟨Option.none, Option.none⟩)],
        "logs", [[("loss", [1]), ("acc", [])]], true, 100, 0, false⟩, 0,
        some PyErr.keyError) ∧
    ¬ (List.length [(1 : ℚ)] = List.length ([] : List ℚ)) := by
  exact ⟨by decide, by decide⟩

/-- C3 (amended): `new_epoch` appends an epoch record holding exactly the
declared keys, all mapped to empty sequences; every mutating operation
(`new_epoch`, `log_info` with any outcome, `load_epoch` with any outcome)
preserves the property that every epoch record holds exactly the declared
key set; and a `log_info` call that completes without an exception takes an
open epoch whose sequences all have length n to one whose sequences all
have length n + 1, so after any successful RecordValue call the declared
keys' sequences share a common length.  (A failing `log_info` can leave a
partial record — see the counterexample above.) -/
theorem key_completeness_invariant (st : Logger) (hnd : st.keys.Nodup) :
    ((st.new_epoch).1.info.getLast? =
      some (st.keys.map (fun k => (k, ([] : List ℚ))))) ∧
    ((∀ d ∈ st.info, d.map Prod.fst = st.keys) →
      ∀ d ∈ (st.new_epoch).1.info, d.map Prod.fst = st.keys) ∧
    (∀ vals, (∀ d ∈ st.info, d.map Prod.fst = st.keys) →
      ∀ d ∈ ((st.log_info vals).1).info, d.map Prod.fst = st.keys) ∧
    (∀ fs e, (∀ d ∈ st.info, d.map Prod.fst = st.keys) →
      ∀ d ∈ ((st.load_epoch fs e).1).info, d.map Prod.fst = st.keys) ∧
    (∀ vals st' p n, (∀ d0 ∈ st.info, d0.map Prod.fst = st.keys) →
      st.log_info vals = (st', p, Option.none) →
      (∀ d0, st.info.getLast? = some d0 → ∀ q ∈ d0, (q.2 : List ℚ).length = n) →
      ∀ d', st'.info.getLast? = some d' →
        ∀ q ∈ d', (q.2 : List ℚ).length = n + 1) := by
  refine ⟨?_, ?_, ?_, ?_, ?_⟩
  · rw [new_epoch_fst]
    exact List.getLast?_concat _
  · intro hkc d hd
    have hd' : d ∈ st.info ++ [st.emptyEpoch] := hd
    rcases List.mem_append.mp hd' with h1 | h1
    · exact hkc d h1
    · rw [List.mem_singleton] at h1
      subst h1
      have hcomp : (Prod.fst ∘ fun k : String => (k, ([] : List ℚ))) = id := rfl
      rw [Logger.emptyEpoch, List.map_map, hcomp, List.map_id]
  · intro vals hkc d hd
    rw [(log_info_info st vals).1] at hd
    exact logInfoGo_keysComplete (fun k hk => hk) hkc d hd
  · intro fs e hkc d hd
    have h1 : ((st.load_epoch fs e).1).info =
        (loadEpochGo st.log_dir_path e fs st.keys st.info).1 := rfl
    rw [h1] at hd
    exact loadEpochGo_keysComplete (fun k hk => hk) hkc d hd
  · intro vals st' p n hkc hsucc hlen d' hd' q hq
    have hgo := log_info_success_go hsucc
    cases hlast : st.info.getLast? with
    | none =>
      have hnil : st.info = [] := getLast?_eq_none_imp hlast
      rw [hnil] at hgo
      have h2 : (logInfoGo vals st.keys ([] : List EpochRec)).1 = st'.info :=
        congrArg Prod.fst hgo
      rw [logInfoGo_nil] at h2
      rw [← h2] at hd'
      simp at hd'
    | some d0 =>
      obtain ⟨-, dd, hdd, hkeysdd, hmem, -⟩ := logInfoGo_success hnd hgo hlast
      rw [hdd] at hd'
      obtain rfl := Option.some_inj.mp hd'
      obtain ⟨k, v⟩ := q
      have hd0keys : d0.map Prod.fst = st.keys := hkc d0 (mem_of_getLast?_eq hlast)
      have hddnd : (dd.map Prod.fst).Nodup := by
        rw [hkeysdd, hd0keys]; exact hnd
      have hget : dictGet? dd k = some v := dictGet?_eq_of_mem_nodup hddnd hq
      have hkmem : k ∈ st.keys := by
        rw [← hd0keys, ← hkeysdd]
        exact List.mem_map_of_mem Prod.fst hq
      obtain ⟨l, x, hl, -, hdk⟩ := hmem k hkmem
      rw [hget] at hdk
      obtain rfl := Option.some_inj.mp hdk
      have hlenl : l.length = n := hlen d0 hlast (k, l) (mem_of_dictGet? hl)
      simp [hlenl]

/-- Witness for C3 at a one-key store with an open epoch of length 0. -/
theorem key_completeness_invariant_witness :
    ((⟨[("loss", ⟨Option.none, Option.none⟩)], "logs", [[("loss", [])]],
        true, 100, 0, false⟩ : Logger).keys.Nodup) ∧
    ((((⟨[("loss", ⟨Option.none, Option.none⟩)], "logs", [[("loss", [])]],
        true, 100, 0, false⟩ : Logger).new_epoch).1.info.getLast? =
      some ((⟨[("loss", ⟨Option.none, Option.none⟩)], "logs", [[("loss", [])]],
        true, 100, 0, false⟩ : Logger).keys.map (fun k => (k, ([] : List ℚ))))) ∧
    ((∀ d ∈ (⟨[("loss", ⟨Option.none, Option.none⟩)], "logs", [[("loss", [])]],
        true, 100, 0, false⟩ : Logger).info, d.map Prod.fst =
        (⟨[("loss", ⟨Option.none, Option.none⟩)], "logs", [[("loss", [])]],
        true, 100, 0, false⟩ : Logger).keys) →
      ∀ d ∈ ((⟨[("loss", ⟨Option.none, Option.none⟩)], "logs", [[("loss", [])]],
        true, 100, 0, false⟩ : Logger).new_epoch).1.info, d.map Prod.fst =
        (⟨[("loss", ⟨Option.none, Option.none⟩)], "logs", [[("loss", [])]],
        true, 100, 0, false⟩ : Logger).keys) ∧
    (∀ vals, (∀ d ∈ (⟨[("loss", ⟨Option.none, Option.none⟩)], "logs", [[("loss", [])]],
        true, 100, 0, false⟩ : Logger).info, d.map Prod.fst =
        (⟨[("loss", ⟨Option.none, Option.none⟩)], "logs", [[("loss", [])]],
        true, 100, 0, false⟩ : Logger).keys) →
      ∀ d ∈ (((⟨[("loss", ⟨Option.none, Option.none⟩)], "logs", [[("loss", [])]],
        true, 100, 0, false⟩ : Logger).log_info vals).1).info, d.map Prod.fst =
        (⟨[("loss", ⟨Option.none, Option.none⟩)], "logs", [[("loss", [])]],
        true, 100, 0, false⟩ : Logger).keys) ∧
    (∀ fs e, (∀ d ∈ (⟨[("loss", ⟨Option.none, Option.none⟩)], "logs", [[("loss", [])]],
        true, 100, 0, false⟩ : Logger).info, d.map Prod.fst =
        (⟨[("loss", ⟨Option.none, Option.none⟩)], "logs", [[("loss", [])]],
        true, 100, 0, false⟩ : Logger).keys) →
      ∀ d ∈ (((⟨[("loss", ⟨Option.none, Option.none⟩)], "logs", [[("loss", [])]],
        true, 100, 0, false⟩ : Logger).load_epoch fs e).1).info, d.map Prod.fst =
        (⟨[("loss", ⟨Option.none, Option.none⟩)], "logs", [[("loss", [])]],
        true, 100, 0, false⟩ : Logger).keys) ∧
    (∀ vals st' p n,
      (∀ d0 ∈ (⟨[("loss", ⟨Option.none, Option.none⟩)], "logs", [[("loss", [])]],
        true, 100, 0, false⟩ : Logger).info, d0.map Prod.fst =
        (⟨[("loss", ⟨Option.none, Option.none⟩)], "logs", [[("loss", [])]],
        true, 100, 0, false⟩ : Logger).keys) →
      (⟨[("loss", ⟨Option.none, Option.none⟩)], "logs", [[("loss", [])]],
        true, 100, 0, false⟩ : Logger).log_info vals = (st', p, Option.none) →
      (∀ d0, ([[("loss", [])]] : List EpochRec).getLast? = some d0 →
        ∀ q ∈ d0, (q.2 : List ℚ).length = n) →
      ∀ d', st'.info.getLast? = some d' →
        ∀ q ∈ d', (q.2 : List ℚ).length = n + 1)) :=
  ⟨by decide, key_completeness_invariant _ (by decide)⟩

/-- C4: `log_info` fails — with KeyError for a missing declared key or
AssertionError for a non-float value, the two concrete forms of the spec's
ValidationError — and otherwise, when every declared key is supplied a
float, appends each supplied float to that key's sequence in the open epoch
and raises nothing. -/
theorem log_info_validation (st : Logger) (vals : Dict PyVal) (d : EpochRec)
    (hnd : st.keys.Nodup)
    (hd : st.info.getLast? = some d)
    (hkeys : d.map Prod.fst = st.keys)
    (hper : st.periodic_plot = true → st.period ≠ 0) :
    ((∃ k ∈ st.keys, dictGet? vals k = Option.none ∨
        ∃ v, dictGet? vals k = some v ∧ v.isFloat = false) →
      ∃ st' p er, st.log_info vals = (st', p, some er) ∧
        (er = PyErr.keyError ∨ er = PyErr.assertionError)) ∧
    ((∀ k ∈ st.keys, ∃ x, dictGet? vals k = some (PyVal.float x)) →
      ∃ st' p, st.log_info vals = (st', p, Option.none) ∧
        ∃ d', st'.info.getLast? = some d' ∧
          ∀ k ∈ st.keys, ∃ l x, dictGet? d k = some l ∧
            dictGet? vals k = some (PyVal.float x) ∧
            dictGet? d' k = some (l ++ [x])) := by
  have hpres : ∀ k ∈ st.keys, (dictGet? d k).isSome = true := fun k hk => by
    obtain ⟨v, hv⟩ := dictGet?_isSome_of_mem_keys (hkeys ▸ hk)
    simp [hv]
  constructor
  · intro hbad
    obtain ⟨info', er, hgo, her⟩ := logInfoGo_validation hd hpres hbad
    exact ⟨_, _, er, log_info_of_go_err hgo, her⟩
  · intro hvals
    obtain ⟨info', hgo⟩ := logInfoGo_ok hd hpres hvals
    obtain ⟨st', p, hli, hinfo⟩ := log_info_of_go_ok hgo hper
    obtain ⟨-, dd, hdd, -, hmem, -⟩ := logInfoGo_success hnd hgo hd
    refine ⟨st', p, hli, dd, ?_, hmem⟩
    rw [hinfo]
    exact hdd

/-- Witness for C4 at a one-key store, exercising both the validation
failure and the successful append. -/
theorem log_info_validation_witness :
    (([[("loss", ([] : List ℚ))]] : List EpochRec).getLast? = some [("loss", [])]) ∧
    (((∃ k ∈ (⟨[("loss", ⟨Option.none, Option.none⟩)], "logs", [[("loss", [])]],
          true, 100, 0, false⟩ : Logger).keys,
        dictGet? [("acc", PyVal.float 1)] k = Option.none ∨
          ∃ v, dictGet? [("acc", PyVal.float 1)] k = some v ∧ v.isFloat = false) →
      ∃ st' p er, (⟨[("loss", ⟨Option.none, Option.none⟩)], "logs", [[("loss", [])]],
          true, 100, 0, false⟩ : Logger).log_info [("acc", PyVal.float 1)] =
          (st', p, some er) ∧
        (er = PyErr.keyError ∨ er = PyErr.assertionError)) ∧
    ((∀ k ∈ (⟨[("loss", ⟨Option.none, Option.none⟩)], "logs", [[("loss", [])]],
          true, 100, 0, false⟩ : Logger).keys,
        ∃ x, dictGet? [("acc", PyVal.float 1)] k = some (PyVal.float x)) →
      ∃ st' p, (⟨[("loss", ⟨Option.none, Option.none⟩)], "logs", [[("loss", [])]],
          true, 100, 0, false⟩ : Logger).log_info [("acc", PyVal.float 1)] =
          (st', p, Option.none) ∧
        ∃ d', st'.info.getLast? = some d' ∧
          ∀ k ∈ (⟨[("loss", ⟨Option.none, Option.none⟩)], "logs", [[("loss", [])]],
            true, 100, 0, false⟩ : Logger).keys,
            ∃ l x, dictGet? [("loss", ([] : List ℚ))] k = some l ∧
              dictGet? [("acc", PyVal.float 1)] k = some (PyVal.float x) ∧
              dictGet? d' k = some (l ++ [x]))) :=
  ⟨by decide, log_info_validation _ [("acc", PyVal.float 1)] [("loss", [])]
    (by decide) (by decide) (by decide) (by decide)⟩

/-- C5: `load_epoch(epochIndex)` replaces the value sequences of the current
open (last) epoch — not the slot at `epochIndex`, whose index is used only in
the file names — with the values parsed from each declared key's file for
that epoch (all non-last epochs are untouched), and fails with
FileNotFoundError (the spec's NotFoundError) if any declared key's file for
that epoch is missing. -/
theorem load_epoch_spec (st : Logger) (fs : FS) (e : ℤ) (d : EpochRec)
    (c : String → List ℚ) (hd : st.info.getLast? = some d) :
    ((∀ k ∈ st.keys, dictGet? fs (fileName st.log_dir_path k e) = some (c k)) →
      ∃ st', st.load_epoch fs e = (st', Option.none) ∧
        st'.info = setLast st.info (setAll d st.keys c) ∧
        st'.info.dropLast = st.info.dropLast ∧
        (st.keys.Nodup → ∀ k ∈ st.keys, ∃ d', st'.info.getLast? = some d' ∧
          dictGet? d' k = some (c k))) ∧
    ((∃ k ∈ st.keys, dictGet? fs (fileName st.log_dir_path k e) = Option.none) →
      ∃ st', st.load_epoch fs e = (st', some PyErr.fileNotFoundError)) := by
  constructor
  · intro hfiles
    have hload := loadEpochGo_success st.log_dir_path e fs hd hfiles
    refine ⟨_, load_epoch_of_go hload, rfl, setLast_dropLast _ _, ?_⟩
    intro hnd k hk
    exact ⟨setAll d st.keys c, setLast_getLast? _ _, dictGet?_setAll_mem hnd hk⟩
  · intro hmiss
    obtain ⟨info', hres, -⟩ := loadEpochGo_fnf st.log_dir_path e fs hd hmiss
    exact ⟨_, load_epoch_of_go hres⟩

/-- Witness for C5 at a concrete store and filesystem. -/
theorem load_epoch_spec_witness :
    (([[("loss", ([] : List ℚ))]] : List EpochRec).getLast? = some [("loss", [])]) ∧
    (((∀ k ∈ (⟨[("loss", ⟨Option.none, Option.none⟩)], "logs", [[("loss", [])]],
          true, 100, 0, false⟩ : Logger).keys,
        dictGet? [("logs/loss_00.json", [(1 : ℚ)])] (fileName "logs" k 0) =
          some ((fun _ => [(1 : ℚ)]) k)) →
      ∃ st', (⟨[("loss", ⟨Option.none, Option.none⟩)], "logs", [[("loss", [])]],
          true, 100, 0, false⟩ : Logger).load_epoch
            [("logs/loss_00.json", [(1 : ℚ)])] 0 = (st', Option.none) ∧
        st'.info = setLast [[("loss", [])]]
          (setAll [("loss", [])] (⟨[("loss", ⟨Option.none, Option.none⟩)], "logs",
            [[("loss", [])]], true, 100, 0, false⟩ : Logger).keys (fun _ => [(1 : ℚ)])) ∧
        st'.info.dropLast = ([[("loss", [])]] : List EpochRec).dropLast ∧
        ((⟨[("loss", ⟨Option.none, Option.none⟩)], "logs", [[("loss", [])]],
            true, 100, 0, false⟩ : Logger).keys.Nodup →
          ∀ k ∈ (⟨[("loss", ⟨Option.none, Option.none⟩)], "logs", [[("loss", [])]],
            true, 100, 0, false⟩ : Logger).keys,
            ∃ d', st'.info.getLast? = some d' ∧ dictGet? d' k = some [(1 : ℚ)])) ∧
    ((∃ k ∈ (⟨[("loss", ⟨Option.none, Option.none⟩)], "logs", [[("loss", [])]],
          true, 100, 0, false⟩ : Logger).keys,
        dictGet? [("logs/loss_00.json", [(1 : ℚ)])] (fileName "logs" k 0) = Option.none) →
      ∃ st', (⟨[("loss", ⟨Option.none, Option.none⟩)], "logs", [[("loss", [])]],
          true, 100, 0, false⟩ : Logger).load_epoch
            [("logs/loss_00.json", [(1 : ℚ)])] 0 =
          (st', some PyErr.fileNotFoundError))) :=
  ⟨by decide, load_epoch_spec _ _ 0 [("loss", [])] (fun _ => [(1 : ℚ)]) (by decide)⟩

/-- C10: `load_epoch` is not atomic on failure: when it raises
FileNotFoundError because some declared key's file is missing, every
declared key iterated before the missing one has already had its sequence in
the open (last) epoch replaced with the loaded file contents. -/
theorem load_epoch_partial_overwrite (st : Logger) (fs : FS) (e : ℤ) (d : EpochRec)
    (ks1 : List String) (k : String) (ks2 : List String) (c : String → List ℚ)
    (hkeys : st.keys = ks1 ++ k :: ks2)
    (hnd : st.keys.Nodup)
    (hd : st.info.getLast? = some d)
    (hpresent : ∀ k' ∈ ks1, dictGet? fs (fileName st.log_dir_path k' e) = some (c k'))
    (hmiss : dictGet? fs (fileName st.log_dir_path k e) = Option.none) :
    ∃ st', st.load_epoch fs e = (st', some PyErr.fileNotFoundError) ∧
      ∃ d', st'.info.getLast? = some d' ∧
        ∀ k' ∈ ks1, dictGet? d' k' = some (c k') := by
  have h' : loadEpochGo st.log_dir_path e fs st.keys st.info =
      (setLast st.info (setAll d ks1 c), some PyErr.fileNotFoundError) := by
    rw [hkeys]
    exact loadEpochGo_partial st.log_dir_path e fs hd hpresent hmiss
  refine ⟨_, load_epoch_of_go h', setAll d ks1 c, setLast_getLast? _ _, ?_⟩
  intro k' hk'
  exact dictGet?_setAll_mem (List.Nodup.of_append_left (hkeys ▸ hnd)) hk'

/-- Witness for C10: with keys loss, acc, a file present for loss only, the
failing `load_epoch` has already replaced the loss sequence. -/
theorem load_epoch_partial_overwrite_witness :
    ((⟨[("loss", ⟨Option.none, Option.none⟩), ("acc", ⟨Option.none, Option.none⟩)],
        "logs", [[("loss", []), ("acc", [])]], true, 100, 0, false⟩ : Logger).keys =
      ["loss"] ++ "acc" :: []) ∧
    (∃ st', (⟨[("loss", ⟨Option.none, Option.none⟩), ("acc", ⟨Option.none, Option.none⟩)],
        "logs", [[("loss", []), ("acc", [])]], true, 100, 0, false⟩ : Logger).load_epoch
          [("logs/loss_00.json", [(7 : ℚ)])] 0 = (st', some PyErr.fileNotFoundError) ∧
      ∃ d', st'.info.getLast? = some d' ∧
        ∀ k' ∈ ["loss"], dictGet? d' k' = some ((fun _ => [(7 : ℚ)]) k')) :=
  ⟨by decide, load_epoch_partial_overwrite _ _ 0 [("loss", []), ("acc", [])]
    ["loss"] "acc" [] (fun _ => [(7 : ℚ)]) (by decide) (by decide) (by decide)
    (by decide) (by decide)⟩

/-- C2: round-trip — for any sequence of floats recorded under a declared
key in an epoch, `save_epoch` of that epoch followed by a fresh
`load_epoch` of the same index into a store with an open epoch (same
declared keys and directory) yields the same sequence for that key,
order-preserving and value-exact. -/
theorem save_load_roundtrip (st st2 : Logger) (fs : FS) (e : ℤ) (d : EpochRec)
    (k : String) (vs : List ℚ)
    (hnd : st.keys.Nodup)
    (hd : pyIndex st.info e = some d)
    (hkeys : d.map Prod.fst = st.keys)
    (hk : dictGet? d k = some vs)
    (hmeta : st2.meta_info_dict = st.meta_info_dict)
    (hdir : st2.log_dir_path = st.log_dir_path)
    (hne : st2.info ≠ []) :
    ∃ fs' st3, st.save_epoch fs e = (fs', Option.none) ∧
      st2.load_epoch fs' e = (st3, Option.none) ∧
      ∃ d', st3.info.getLast? = some d' ∧ dictGet? d' k = some vs := by
  have hkeys2 : st2.keys = st.keys := by
    simp [Logger.keys, hmeta]
  have hvals : ∀ k' ∈ st.keys, dictGet? d k' = some ((dictGet? d k').getD []) := by
    intro k' hk'
    obtain ⟨v, hv⟩ := dictGet?_isSome_of_mem_keys (hkeys ▸ hk')
    rw [hv]; rfl
  have hsave : st.save_epoch fs e =
      (writeAll fs (st.keys.map fun k' =>
        (fileName st.log_dir_path k' e, (dictGet? d k').getD [])), Option.none) :=
    saveEpochGo_success st.log_dir_path e hd fs hvals
  have hinj : Function.Injective (fun k' => fileName st.log_dir_path k' e) :=
    fun a b hab => fileName_injective _ _ hab
  have hpnd : ((st.keys.map fun k' =>
      (fileName st.log_dir_path k' e, (dictGet? d k').getD [])).map Prod.fst).Nodup := by
    rw [List.map_map]
    have hcomp : (Prod.fst ∘ fun k' =>
        (fileName st.log_dir_path k' e, (dictGet? d k').getD ([] : List ℚ))) =
        fun k' => fileName st.log_dir_path k' e := rfl
    rw [hcomp]
    exact List.Nodup.map hinj hnd
  have hpresent : ∀ k' ∈ st2.keys,
      dictGet? (writeAll fs (st.keys.map fun k' =>
        (fileName st.log_dir_path k' e, (dictGet? d k').getD [])))
        (fileName st2.log_dir_path k' e) = some ((dictGet? d k').getD []) := by
    intro k' hk'
    rw [hdir]
    exact dictGet?_writeAll_mem hpnd
      (List.mem_map_of_mem
        (fun k' => (fileName st.log_dir_path k' e, (dictGet? d k').getD []))
        (hkeys2 ▸ hk'))
  obtain ⟨d2, hd2⟩ := exists_getLast?_of_ne_nil hne
  have hload := loadEpochGo_success st2.log_dir_path e
    (writeAll fs (st.keys.map fun k' =>
      (fileName st.log_dir_path k' e, (dictGet? d k').getD []))) hd2 hpresent
  refine ⟨_, _, hsave, load_epoch_of_go hload, ?_⟩
  refine ⟨setAll d2 st2.keys (fun k' => (dictGet? d k').getD []),
    setLast_getLast? _ _, ?_⟩
  have hkmem : k ∈ st2.keys := by
    rw [hkeys2, ← hkeys]
    exact List.mem_map_of_mem Prod.fst (mem_of_dictGet? hk)
  rw [dictGet?_setAll_mem (by rw [hkeys2]; exact hnd) hkmem, hk]
  rfl

/-- Witness for C2: the two values 5 and 4 recorded under key loss in epoch
0 survive a save/load round trip. -/
theorem save_load_roundtrip_witness :
    (pyIndex ([[("loss", [(5 : ℚ), 4])]] : List EpochRec) 0 =
      some [("loss", [(5 : ℚ), 4])]) ∧
    (∃ fs' st3,
      (⟨[("loss", ⟨Option.none, Option.none⟩)], "logs",
        [[("loss", [(5 : ℚ), 4])]], true, 100, 0, false⟩ : Logger).save_epoch
          [] 0 = (fs', Option.none) ∧
      (⟨[("loss", ⟨Option.none, Option.none⟩)], "logs",
        [[("loss", [(5 : ℚ), 4])]], true, 100, 0, false⟩ : Logger).load_epoch
          fs' 0 = (st3, Option.none) ∧
      ∃ d', st3.info.getLast? = some d' ∧
        dictGet? d' "loss" = some [(5 : ℚ), 4]) :=
  ⟨by decide, save_load_roundtrip _ _ [] 0 [("loss", [(5 : ℚ), 4])] "loss"
    [(5 : ℚ), 4] (by decide) (by decide) (by decide) (by decide) (by decide)
    (by decide) (by decide)⟩

/-- C6: with periodic plotting enabled and plotPeriod P, any run of P
consecutive successful `log_info` calls starting from a counter below P
triggers exactly one plot render (at the call on which the counter wraps to
zero), and a `new_epoch` call triggers exactly one additional render unless
the store is resuming (`is_loading` set), in which case it triggers none. -/
theorem plot_period_renders (st : Logger) (ins : List (Dict PyVal)) (st' : Logger)
    (q : ℕ)
    (hpp : st.periodic_plot = true)
    (hz : st.period ≠ 0)
    (hc : st.plot_counter < st.period)
    (hlen : ins.length = st.period)
    (hrun : run_log_infos st ins = (st', q, Option.none)) :
    q = 1 ∧
    (st.is_loading = false → (st.new_epoch).2 = 1) ∧
    (st.is_loading = true → (st.new_epoch).2 = 0) := by
  refine ⟨?_, ?_, ?_⟩
  · have h := run_log_infos_renders ins hrun hpp hz hc
    rw [hlen] at h
    rw [h, Nat.add_div_right _ (Nat.pos_of_ne_zero hz), Nat.div_eq_of_lt hc]
  · intro hl
    rw [new_epoch_renders, hl, hpp]
    rfl
  · intro hl
    rw [new_epoch_renders, hl]
    rfl

/-- Witness for C6: period 2, two successful `log_info` calls, exactly one
render; `new_epoch` on the same non-loading store renders once. -/
theorem plot_period_renders_witness :
    (run_log_infos
      (⟨[("loss", ⟨Option.none, Option.none⟩)], "logs", [[("loss", [])]],
        true, 2, 0, false⟩ : Logger)
      [[("loss", PyVal.float 1)], [("loss", PyVal.float 2)]] =
      (⟨[("loss", ⟨Option.none, Option.none⟩)], "logs", [[("loss", [1, 2])]],
        true, 2, 0, false⟩, 1, Option.none)) ∧
    ((1 : ℕ) = 1 ∧
    ((⟨[("loss", ⟨Option.none, Option.none⟩)], "logs", [[("loss", [])]],
        true, 2, 0, false⟩ : Logger).is_loading = false →
      ((⟨[("loss", ⟨Option.none, Option.none⟩)], "logs", [[("loss", [])]],
        true, 2, 0, false⟩ : Logger).new_epoch).2 = 1) ∧
    ((⟨[("loss", ⟨Option.none, Option.none⟩)], "logs", [[("loss", [])]],
        true, 2, 0, false⟩ : Logger).is_loading = true →
      ((⟨[("loss", ⟨Option.none, Option.none⟩)], "logs", [[("loss", [])]],
        true, 2, 0, false⟩ : Logger).new_epoch).2 = 0)) :=
  ⟨by decide, plot_period_renders _
    [[("loss", PyVal.float 1)], [("loss", PyVal.float 2)]]
    (⟨[("loss", ⟨Option.none, Option.none⟩)], "logs", [[("loss", [1, 2])]],
      true, 2, 0, false⟩ : Logger) 1
    (by decide) (by decide) (by decide) (by decide) (by decide)⟩

/-- C7 (code bug): `save_epoch_summary` computes each key's mean, but then
evaluates `os.path.join(self.dir_path, ...)` and the attribute `dir_path`
was never set on the object (`__init__` sets `log_dir_path`), so every call
raises AttributeError and no summary file is ever written. -/
theorem save_epoch_summary_attr_error (st : Logger) (e : ℤ) (d : EpochRec)
    (hd : pyIndex st.info e = some d)
    (hne : ∀ p ∈ d, (p.2 : List ℚ) ≠ []) :
    st.save_epoch_summary e = some PyErr.attributeError := by
  obtain ⟨s, hs⟩ := summaryLoop_ok hne ([] : Dict ℚ)
  simp [Logger.save_epoch_summary, hd, hs]

/-- Witness for C7 at the failing input: one key with one recorded value. -/
theorem save_epoch_summary_attr_error_witness :
    (pyIndex ([[("loss", [(1 : ℚ)])]] : List EpochRec) 0 = some [("loss", [1])]) ∧
    (⟨[("loss", ⟨Option.none, Option.none⟩)], "logs", [[("loss", [(1 : ℚ)])]],
        true, 100, 0, false⟩ : Logger).save_epoch_summary 0 =
      some PyErr.attributeError :=
  ⟨by decide, save_epoch_summary_attr_error _ 0 [("loss", [1])] (by decide) (by decide)⟩

/-- C8 (code bug): `print_epoch_summary` prints only the header line and then
fails: for the first key the line's f-string calls `get_key_alias`, whose
body reads the unbound name `k` (its parameter is `key`), raising NameError;
`except KeyError` does not catch it, so no alias or mean is ever printed. -/
theorem print_epoch_summary_name_error (st : Logger) (e : ℤ) (d : EpochRec)
    (hd : pyIndex st.info e = some d) (hne : d ≠ []) :
    st.print_epoch_summary e =
      (["\nEpoch " ++ fmt02 e ++ " summary:"], some PyErr.nameError) := by
  obtain ⟨⟨k, v⟩, rest, rfl⟩ : ∃ p rest, d = p :: rest := by
    cases d with
    | nil => exact absurd rfl hne
    | cons p rest => exact ⟨p, rest, rfl⟩
  simp [Logger.print_epoch_summary, hd, printLoop, Logger.get_key_alias]

/-- Witness for C8 at the failing input. -/
theorem print_epoch_summary_name_error_witness :
    (pyIndex ([[("loss", [(1 : ℚ)])]] : List EpochRec) 0 = some [("loss", [1])]) ∧
    (⟨[("loss", ⟨Option.none, Option.none⟩)], "logs", [[("loss", [(1 : ℚ)])]],
        true, 100, 0, false⟩ : Logger).print_epoch_summary 0 =
      (["\nEpoch " ++ fmt02 0 ++ " summary:"], some PyErr.nameError) :=
  ⟨by decide, print_epoch_summary_name_error _ 0 [("loss", [1])] (by decide) (by decide)⟩

/-- C9 counterexample: on a store whose declared key loss has zero recorded
values in epoch 0, `print_epoch_summary` fails with NameError — raised by
`get_key_alias` before the mean is evaluated — and not with the
ZeroDivisionError-equivalent the claim asserts for both summary methods. -/
theorem print_summary_error_counterexample :
    (Logger.print_epoch_summary
      ⟨[("loss", ⟨Option.none, Option.none⟩)], "logs", [[("loss", [])]],
        true, 100, 0, false⟩ 0).2 = some PyErr.nameError ∧
    some PyErr.nameError ≠ some PyErr.zeroDivisionError := by
  exact ⟨rfl, by decide⟩

/-- C9 (amended): `save_epoch_summary` fails with ZeroDivisionError whenever
some declared key has zero recorded values in the epoch (the empty case is
not guarded); `print_epoch_summary` also fails on any non-empty key set, but
with the NameError from `get_key_alias`, raised before the division. -/
theorem epoch_summary_zero_values (st : Logger) (e : ℤ) (d : EpochRec)
    (hd : pyIndex st.info e = some d) :
    ((∃ p ∈ d, (p.2 : List ℚ) = []) →
      st.save_epoch_summary e = some PyErr.zeroDivisionError) ∧
    (d ≠ [] → (st.print_epoch_summary e).2 = some PyErr.nameError) := by
  constructor
  · intro hz
    simp [Logger.save_epoch_summary, hd, summaryLoop_zero hz]
  · intro hne
    obtain ⟨⟨k, v⟩, rest, rfl⟩ : ∃ p rest, d = p :: rest := by
      cases d with
      | nil => exact absurd rfl hne
      | cons p rest => exact ⟨p, rest, rfl⟩
    simp [Logger.print_epoch_summary, hd, printLoop, Logger.get_key_alias]

/-- Witness for the amended C9 at a store with an empty value list. -/
theorem epoch_summary_zero_values_witness :
    (pyIndex ([[("loss", ([] : List ℚ))]] : List EpochRec) 0 = some [("loss", [])]) ∧
    (((∃ p ∈ ([("loss", ([] : List ℚ))] : EpochRec), (p.2 : List ℚ) = []) →
        (⟨[("loss", ⟨Option.none, Option.none⟩)], "logs", [[("loss", [])]],
          true, 100, 0, false⟩ : Logger).save_epoch_summary 0 =
          some PyErr.zeroDivisionError) ∧
      (([("loss", ([] : List ℚ))] : EpochRec) ≠ [] →
        ((⟨[("loss", ⟨Option.none, Option.none⟩)], "logs", [[("loss", [])]],
          true, 100, 0, false⟩ : Logger).print_epoch_summary 0).2 =
          some PyErr.nameError)) :=
  ⟨by decide, epoch_summary_zero_values _ 0 [("loss", [])] (by decide)⟩

end EpochLog
